import Mathlib

/-!
Verification of the GANZA AI WebSocket relay servers
(`server.py`, the managed Vertex-AI variant, and `server_gemini_api.py`,
the direct-API-key variant) against their natural-language specification.

The development shallowly embeds the message-level logic of both servers:
JSON payloads are modelled as an inductive `Json` type whose objects are
ordered association lists (Python `dict`s preserve insertion order),
the model-name rewriting of `extract_model_name` /
`map_vertex_ai_to_gemini_api_model` is embedded over explicit character
lists (mirroring Python's `in` and `str.split` on a fixed separator),
and the per-message forwarding loop of `proxy_task` is embedded as a fold
over the list of messages received from the source connection.
-/

set_option autoImplicit false

namespace Ganza

/-- JSON values as produced by Python's `json.loads`: objects are ordered
association lists of string keys (Python dicts preserve insertion order,
and `json.loads` never produces duplicate keys).  Numbers are modelled as
integers; none of the payload logic of the servers inspects numeric
values. -/
inductive Json where
  | null
  | bool (b : Bool)
  | num (n : Int)
  | str (s : String)
  | arr (elems : List Json)
  | obj (fields : List (String × Json))

mutual

/-- Structural equality test on JSON values (Python's `==` on parsed JSON). -/
def Json.beq : Json → Json → Bool
  | .null, .null => true
  | .bool a, .bool b => a == b
  | .num a, .num b => a == b
  | .str a, .str b => a == b
  | .arr a, .arr b => Json.beqElems a b
  | .obj a, .obj b => Json.beqFields a b
  | _, _ => false

/-- Equality test on lists of JSON values. -/
def Json.beqElems : List Json → List Json → Bool
  | [], [] => true
  | a :: as, b :: bs => Json.beq a b && Json.beqElems as bs
  | _, _ => false

/-- Equality test on JSON object field lists. -/
def Json.beqFields : List (String × Json) → List (String × Json) → Bool
  | [], [] => true
  | (k, v) :: as, (l, w) :: bs => k == l && Json.beq v w && Json.beqFields as bs
  | _, _ => false

end

mutual

theorem Json.beq_refl : (a : Json) → Json.beq a a = true
  | .null => rfl
  | .bool b => by simp [Json.beq]
  | .num n => by simp [Json.beq]
  | .str s => by simp [Json.beq]
  | .arr xs => Json.beqElems_refl xs
  | .obj fs => Json.beqFields_refl fs

theorem Json.beqElems_refl : (xs : List Json) → Json.beqElems xs xs = true
  | [] => rfl
  | x :: xs => by
      rw [Json.beqElems, Json.beq_refl x, Json.beqElems_refl xs]; rfl

theorem Json.beqFields_refl : (fs : List (String × Json)) → Json.beqFields fs fs = true
  | [] => rfl
  | (k, v) :: fs => by
      rw [Json.beqFields, Json.beq_refl v, Json.beqFields_refl fs]; simp

end

mutual

theorem Json.eq_of_beq : (a b : Json) → Json.beq a b = true → a = b
  | .null, .null, _ => rfl
  | .bool a, .bool b, h => by simpa [Json.beq] using h
  | .num a, .num b, h => by simpa [Json.beq] using h
  | .str a, .str b, h => by simpa [Json.beq] using h
  | .arr a, .arr b, h => by rw [Json.eqElems_of_beqElems a b h]
  | .obj a, .obj b, h => by rw [Json.eqFields_of_beqFields a b h]
  | .null, .bool _, h | .null, .num _, h | .null, .str _, h | .null, .arr _, h
  | .null, .obj _, h | .bool _, .null, h | .bool _, .num _, h | .bool _, .str _, h
  | .bool _, .arr _, h | .bool _, .obj _, h | .num _, .null, h | .num _, .bool _, h
  | .num _, .str _, h | .num _, .arr _, h | .num _, .obj _, h | .str _, .null, h
  | .str _, .bool _, h | .str _, .num _, h | .str _, .arr _, h | .str _, .obj _, h
  | .arr _, .null, h | .arr _, .bool _, h | .arr _, .num _, h | .arr _, .str _, h
  | .arr _, .obj _, h | .obj _, .null, h | .obj _, .bool _, h | .obj _, .num _, h
  | .obj _, .str _, h | .obj _, .arr _, h => by simp [Json.beq] at h

theorem Json.eqElems_of_beqElems : (xs ys : List Json) → Json.beqElems xs ys = true → xs = ys
  | [], [], _ => rfl
  | x :: xs, y :: ys, h => by
      rw [Json.beqElems, Bool.and_eq_true] at h
      rw [Json.eq_of_beq x y h.1, Json.eqElems_of_beqElems xs ys h.2]
  | [], _ :: _, h => by simp [Json.beqElems] at h
  | _ :: _, [], h => by simp [Json.beqElems] at h

theorem Json.eqFields_of_beqFields :
    (fs gs : List (String × Json)) → Json.beqFields fs gs = true → fs = gs
  | [], [], _ => rfl
  | (k, v) :: fs, (l, w) :: gs, h => by
      rw [Json.beqFields, Bool.and_eq_true, Bool.and_eq_true] at h
      have hk : k = l := by simpa using h.1.1
      rw [hk, Json.eq_of_beq v w h.1.2, Json.eqFields_of_beqFields fs gs h.2]
  | [], _ :: _, h => by simp [Json.beqFields] at h
  | _ :: _, [], h => by simp [Json.beqFields] at h

end

instance : BEq Json := ⟨Json.beq⟩

instance : DecidableEq Json := fun a b =>
  if h : Json.beq a b = true then isTrue (Json.eq_of_beq a b h)
  else isFalse (fun he => h (he ▸ Json.beq_refl a))

/-- `d.get(k)` / `d[k]` on a Python dict modelled as an ordered association
list: the value of the first entry with the given key, if any. -/
def alistGet {β : Type} : List (String × β) → String → Option β
  | [], _ => none
  | p :: rest, k => if p.1 = k then some p.2 else alistGet rest k

/-- `d[k] = v` on a Python dict: replace the value of the entry with key `k`
in place (keeping its position), or append a new entry if the key is absent. -/
def alistSet {β : Type} : List (String × β) → String → β → List (String × β)
  | [], k, v => [(k, v)]
  | p :: rest, k, v => if p.1 = k then (k, v) :: rest else p :: alistSet rest k v

/-- `del d[k]` on a Python dict: remove the entry with key `k`, preserving
the order of the remaining entries. -/
def alistDel {β : Type} : List (String × β) → String → List (String × β)
  | [], _ => []
  | p :: rest, k => if p.1 = k then alistDel rest k else p :: alistDel rest k

/-- Does the character sequence `pat` occur as a contiguous subsequence of
`l`?  This is Python's substring test `pat in l` for strings, spelled out
on character lists. -/
def hasInfixSeq (pat : List Char) : List Char → Bool
  | [] => pat.isPrefixOf []
  | c :: rest => pat.isPrefixOf (c :: rest) || hasInfixSeq pat rest

/-- Fuel-driven worker for `splitOnSeq`; the fuel only serves to make the
recursion structural (each step consumes at least one character, so any
fuel of at least the input's length gives the fuel-free behaviour). -/
def splitOnAux (s0 : Char) (srest : List Char) : Nat → List Char → List (List Char)
  | _, [] => [[]]
  | 0, l => [l]
  | fuel + 1, c :: rest =>
    if (s0 :: srest).isPrefixOf (c :: rest) then
      [] :: splitOnAux s0 srest fuel (rest.drop srest.length)
    else
      match splitOnAux s0 srest fuel rest with
      | [] => [[c]]
      | p :: ps => (c :: p) :: ps

/-- Leftmost, non-overlapping split of a character list on the (non-empty)
separator `s0 :: srest`.  This is the character-list meaning of Python's
`str.split(sep)` for a non-empty separator: scanning left to right, each
occurrence of the separator ends the current chunk. -/
def splitOnSeq (s0 : Char) (srest : List Char) (l : List Char) : List (List Char) :=
  splitOnAux s0 srest l.length l

/-! ### Model-name rewriting (`server_gemini_api.py`, lines 34-98)

The direct-key server rewrites Vertex-AI-style model identifiers to the
form the Gemini API expects.  The string operations are embedded through
explicit character lists: `strStarts` is Python's `str.startswith`,
`hasModelsSub` is Python's substring test for the fixed separator, and
`stripModels` is `model_uri.split("/models/")[-1]`. -/

/-- The character list of the fixed path separator without its leading
slash, i.e. the characters of the seven-character token after '/'. -/
def modelsSepRest : List Char := ['m', 'o', 'd', 'e', 'l', 's', '/']

/-- The character list of "/models/", the separator used by
`extract_model_name`. -/
def modelsSep : List Char := '/' :: modelsSepRest

/-- Python's `s.startswith(pre)`. -/
def strStarts (s pre : String) : Bool := pre.toList.isPrefixOf s.toList

/-- Python's substring test `"/models/" in s`. -/
def hasModelsSub (s : String) : Bool := hasInfixSeq modelsSep s.toList

/-- Python's `s.split("/models/")[-1]`: the last chunk of the leftmost,
non-overlapping split on "/models/".  (`splitOnSeq` always returns a
non-empty list, so the default value of `getLastD` is never used.) -/
def stripModels (s : String) : String :=
  ⟨(splitOnSeq '/' modelsSepRest s.toList).getLastD s.toList⟩

/-- The compiled-in fallback model name of `server_gemini_api.py`
(line 31): the value `DEFAULT_MODEL` takes when the environment does not
override it.  The theorems below quantify over the configured default
where possible and use this literal in concrete witnesses. -/
def DEFAULT_MODEL : String := "gemini-2.5-flash-native-audio-preview-12-2025"

/-- The fixed lookup table of `map_vertex_ai_to_gemini_api_model`
(lines 42-51): Vertex AI model names and their Gemini API equivalents. -/
def model_mapping : List (String × String) :=
  [ ("gemini-live-2.5-flash-native-audio",
     "gemini-2.5-flash-native-audio-preview-12-2025"),
    ("gemini-live-2.5-flash-preview-native-audio-09-2025",
     "gemini-2.5-flash-native-audio-preview-12-2025"),
    ("gemini-2.0-flash-exp", "gemini-2.0-flash-exp"),
    ("gemini-1.5-pro", "gemini-1.5-pro"),
    ("gemini-1.5-flash", "gemini-1.5-flash") ]

/-- `map_vertex_ai_to_gemini_api_model` (lines 34-69), parameterised by the
configured `DEFAULT_MODEL`: a name present in the table maps to its table
value; a name absent from the table that does not start with
"gemini-live-" is returned unchanged; any other name falls back to the
configured default. -/
def map_vertex_ai_to_gemini_api_model (defaultModel vertex_model_name : String) : String :=
  match alistGet model_mapping vertex_model_name with
  | some mapped_name => mapped_name
  | none =>
    if ¬ strStarts vertex_model_name "gemini-live-" then vertex_model_name
    else defaultModel

/-- `extract_model_name` (lines 72-98), parameterised by the configured
`DEFAULT_MODEL`: an empty (falsy) model uri yields the prefixed default;
otherwise the part after the last "/models/" (if any) is mapped through
`map_vertex_ai_to_gemini_api_model` and the mandatory "models/" namespace
token is prepended unless already present. -/
def extract_model_name (defaultModel model_uri : String) : String :=
  if model_uri = "" then "models/" ++ defaultModel
  else
    let model_name := if hasModelsSub model_uri then stripModels model_uri else model_uri
    let gemini_api_model := map_vertex_ai_to_gemini_api_model defaultModel model_name
    if strStarts gemini_api_model "models/" then gemini_api_model
    else "models/" ++ gemini_api_model

example :
    extract_model_name DEFAULT_MODEL "gemini-live-2.5-flash-native-audio" =
      "models/gemini-2.5-flash-native-audio-preview-12-2025" := by decide

example :
    extract_model_name DEFAULT_MODEL
      "projects/p/locations/us-central1/publishers/google/models/gemini-live-2.5-flash-native-audio" =
      "models/gemini-2.5-flash-native-audio-preview-12-2025" := by decide

example : extract_model_name DEFAULT_MODEL "" = "models/" ++ DEFAULT_MODEL := by decide

example : extract_model_name DEFAULT_MODEL "models/gemini-1.5-pro" = "models/gemini-1.5-pro" := by
  decide

/-! ### The setup-message transformation (`server_gemini_api.py`, lines 123-159)

`proxy_task` rewrites any client-to-upstream message whose parsed JSON
object has a "setup" key: the setup's "model" value is rewritten through
`extract_model_name`, the setup's "proactivity" entry and the nested
generation_config's "enable_affective_dialog" entry are deleted.  The whole
per-message body runs inside a `try`/`except Exception` handler, so any
exception raised while transforming drops the message (it is neither sent
nor re-raised); the transformer therefore returns an `Option`, with `none`
for exactly the value shapes on which the source raises.  Python's
dynamic operators make those shapes irregular, and each branch below
records the source behaviour it mirrors: `in` is a key test on dicts, an
element test (via `==`) on lists, a substring test on strings, and a
`TypeError` on every other value; subscripting or `del` with a string
index raises `TypeError` on anything but a dict. -/

/-- Python truthiness of a parsed JSON value (`if not x` in the source). -/
def pyTruthy : Json → Bool
  | .null => false
  | .bool b => b
  | .num n => n != 0
  | .str s => s != ""
  | .arr elems => !elems.isEmpty
  | .obj fields => !fields.isEmpty

/-- `extract_model_name(setup["model"])` (line 129) on the model value:
`some` the rewritten model string, `none` when the call raises and the
message is dropped.  A string takes the string path of
`extract_model_name`; any falsy value (null, false, 0, "", [], {}) takes
its `if not model_uri` branch (line 79) and yields the prefixed default;
every truthy non-string value raises (`"/models/" in v` is a `TypeError`
for bool/number; for a non-empty list or dict either `v.split` is an
`AttributeError` or the unhashable `v in model_mapping` is a
`TypeError`). -/
def extractModelValue (defaultModel : String) : Json → Option String
  | .str original_model => some (extract_model_name defaultModel original_model)
  | v => if pyTruthy v then none else some ("models/" ++ defaultModel)

/-- `if "enable_affective_dialog" in gen_config: del gen_config[...]`
(lines 151-157) on the generation_config value: `some` the resulting
value, `none` when the membership test or the deletion raises and the
message is dropped.  On a dict the entry is deleted; on a string the test
is a substring test and on a list an element test, and when it is `True`
the `del` raises `TypeError`, else the value is kept intact; on any other
value the `in` test itself raises `TypeError`. -/
def stripGenConfig : Json → Option Json
  | .obj gen_config => some (.obj (alistDel gen_config "enable_affective_dialog"))
  | .str s => if hasInfixSeq "enable_affective_dialog".toList s.toList then none
      else some (.str s)
  | .arr elems => if elems.contains (.str "enable_affective_dialog") then none
      else some (.arr elems)
  | _ => none

/-- The field-stripping phase of the transformation (lines 136-159):
delete "proactivity" from the setup if present, then apply
`stripGenConfig` to the "generation_config" value if present.  The source
mutates the nested dict in place (or leaves a tolerated non-dict value
untouched); re-storing the result with `alistSet` is the same association
list in both cases, since `alistSet` with the unchanged value is the
identity. -/
def stripUnsupported (setup : List (String × Json)) : Option (List (String × Json)) :=
  let s2 := alistDel setup "proactivity"
  match alistGet s2 "generation_config" with
  | none => some s2
  | some gen_config =>
    match stripGenConfig gen_config with
    | none => none
    | some gc' => some (alistSet s2 "generation_config" gc')

/-- The transformation applied to the "setup" object (lines 127-159):
rewrite "model" through `extractModelValue` if present, then strip the
unsupported fields. -/
def transformSetup (defaultModel : String) (setup : List (String × Json)) :
    Option (List (String × Json)) :=
  match alistGet setup "model" with
  | none => stripUnsupported setup
  | some v =>
    match extractModelValue defaultModel v with
    | none => none
    | some model_name => stripUnsupported (alistSet setup "model" (.str model_name))

/-- The per-message transformation of `proxy_task` when
`transform_setup_message and not is_server` holds (lines 123-159), on the
parsed JSON of one client message.  Messages without a "setup" key pass
through.  A string or list "setup" value is forwarded unchanged when none
of "model", "proactivity", "generation_config" is a substring/element (all
three `in` tests are `False` and the block does nothing); when one of them
is, the subscript or `del` on the non-dict raises and the message is
dropped, as it is for any other non-dict "setup" value (`"model" in v` is
a `TypeError`).  At the top level, `"setup" in data` is an element test on
an array, a substring test on a string, and a `TypeError` (dropping the
message) on the remaining non-object shapes; when the test succeeds on an
array or string, `data["setup"]` raises. -/
def transformData (defaultModel : String) (data : Json) : Option Json :=
  match data with
  | .obj fields =>
    match alistGet fields "setup" with
    | some (.obj setup) =>
      match transformSetup defaultModel setup with
      | some setup' => some (.obj (alistSet fields "setup" (.obj setup')))
      | none => none
    | some (.str s) =>
      if hasInfixSeq "model".toList s.toList
          || hasInfixSeq "proactivity".toList s.toList
          || hasInfixSeq "generation_config".toList s.toList
      then none else some data
    | some (.arr elems) =>
      if elems.contains (.str "model") || elems.contains (.str "proactivity")
          || elems.contains (.str "generation_config")
      then none else some data
    | some _ => none
    | none => some data
  | .arr elems => if elems.contains (.str "setup") then none else some data
  | .str s => if hasInfixSeq "setup".toList s.toList then none else some data
  | _ => none

/-! ### The forwarding loop (`proxy_task`, `server_gemini_api.py` lines 101-173)

`proxy_task` iterates over the source connection's messages; each parsed
message is (optionally) transformed and written to the destination inside
a per-message `try`/`except Exception` handler, so a failed write (the
destination already closed raises `ConnectionClosed`, a subclass of
`Exception`) is caught and logged and the loop moves on to the next
message.  The loop ends when the source closes; the `finally` clause then
closes the destination.  The loop is embedded as a fold over the list of
messages the source delivers before closing, together with the state of
the destination connection. -/

/-- The destination connection's state: whether it is closed, and the
messages successfully written to it, in order. -/
structure DestState where
  closed : Bool
  sent : List Json
deriving DecidableEq

/-- `await destination_websocket.send(...)` (line 163): writing to a closed
connection raises `ConnectionClosed`, which the per-message handler
swallows, so the message is simply not recorded; otherwise the message is
appended to the destination's stream. -/
def sendJson (dest : DestState) (m : Json) : DestState :=
  if dest.closed then dest else { dest with sent := dest.sent ++ [m] }

/-- The body of one `async for` iteration of `proxy_task` (lines 118-165):
the message to send, or `none` when the per-message handler swallowed an
exception and dropped the message.  The transformation runs only when
`transform_setup_message and not is_server`. -/
def processMessage (defaultModel : String) (transform_setup_message is_server : Bool)
    (data : Json) : Option Json :=
  if transform_setup_message && !is_server then transformData defaultModel data
  else some data

/-- The `async for` loop of `proxy_task` over the messages the source
delivers before closing, returning the number of messages received from
the source and the final destination state. -/
def proxy_task_loop (defaultModel : String) (transform_setup_message is_server : Bool) :
    List Json → DestState → Nat × DestState
  | [], dest => (0, dest)
  | m :: rest, dest =>
    let dest' :=
      match processMessage defaultModel transform_setup_message is_server m with
      | some t => sendJson dest t
      | none => dest
    let (n, d) := proxy_task_loop defaultModel transform_setup_message is_server rest dest'
    (n + 1, d)

/-- `proxy_task` (lines 101-173): run the forwarding loop until the source
closes, then close the destination (the `finally` clause, line 173). -/
def proxy_task (defaultModel : String) (transform_setup_message is_server : Bool)
    (msgs : List Json) (dest : DestState) : Nat × DestState :=
  ((proxy_task_loop defaultModel transform_setup_message is_server msgs dest).1,
   { (proxy_task_loop defaultModel transform_setup_message is_server msgs dest).2 with
      closed := true })

/-! ### Handshake handling (`server.py`, lines 199-250, the managed variant)

`handle_websocket_client` reads the client's first message, resolves the
bearer token (generating one when the client supplied none), checks the
service url, and only then calls `create_proxy`.  Credential resolution is
an external capability; it is passed in as `tokenGen : Option String`
(`some` when `generate_access_token()` returns a token, `none` when it
returns `None`). -/

/-- Truthiness of `dict.get`'s result: an absent key yields `None`, which
is falsy. -/
def optTruthy : Option Json → Bool
  | none => false
  | some v => pyTruthy v

/-- How `handle_websocket_client` disposes of a session after parsing the
first message: close the client with a code and reason, or proceed to
`create_proxy` (the only place an upstream connection is attempted) with a
bearer token and the client-supplied service url. -/
inductive Outcome where
  | closeConn (code : Nat) (reason : String)
  | proxyConn (bearer_token : Json) (service_url : Json)
deriving DecidableEq

/-- Does the outcome attempt an upstream connection? -/
def Outcome.attemptsUpstream : Outcome → Bool
  | .closeConn _ _ => false
  | .proxyConn _ _ => true

/-- The decision logic of `handle_websocket_client` (`server.py`,
lines 215-239) on the parsed first message: resolve the token first
(closing with "Authentication failed" when generation fails), then require
a truthy service url (closing with "Service URL is required"), then hand
off to `create_proxy`. -/
def handle_websocket_client (data : List (String × Json)) (tokenGen : Option String) : Outcome :=
  let bearer_token := alistGet data "bearer_token"
  let service_url := alistGet data "service_url"
  if !optTruthy bearer_token then
    match tokenGen with
    | none => .closeConn 1008 "Authentication failed"
    | some tok =>
      if !optTruthy service_url then .closeConn 1008 "Service URL is required"
      else .proxyConn (.str tok) ((service_url).getD .null)
  else
    if !optTruthy service_url then .closeConn 1008 "Service URL is required"
    else .proxyConn ((bearer_token).getD .null) ((service_url).getD .null)

/-! ### Close propagation (`create_proxy`, `server.py` lines 148-196 and
`server_gemini_api.py` lines 198-251)

Both variants share the same control flow.  Inside `create_proxy`'s
`async with websockets.connect(...)` block, the two `proxy_task`s swallow
their own `ConnectionClosed` (each logs and, in its `finally`, calls the
destination's bare `close()`, whose defaults are code 1000 and an empty
reason); `asyncio.wait` never re-raises task exceptions, and the
cancellation and the trailing best-effort `close()` calls suppress theirs.
A `ConnectionClosed` therefore reaches `create_proxy`'s
`except ConnectionClosed` handler (which closes the client with the
upstream's own code and reason) only when `websockets.connect` itself
raises it while establishing the upstream connection; any other
establishment failure reaches the generic handler (code 1008,
"Upstream connection failed").  When the upstream closes mid-relay, the
client is closed by the upstream-to-client `proxy_task`'s `finally` with
the bare `close()` defaults. -/

/-- A close code and reason carried by a connection closure. -/
structure CloseInfo where
  code : Nat
  reason : String
deriving DecidableEq

/-- The defaults of `websockets`' bare `close()`: code 1000, empty reason
(used by `proxy_task`'s `finally` clause). -/
def defaultClose : CloseInfo := ⟨1000, ""⟩

/-- How a `create_proxy` session ends on the upstream side. -/
inductive UpstreamEvent where
  /-- `websockets.connect` raised `ConnectionClosed` while establishing the
  upstream connection (caught at `server.py` line 189). -/
  | connectClosed (info : CloseInfo)
  /-- `websockets.connect` raised some other exception (caught at
  `server.py` line 193). -/
  | connectFailed
  /-- The established upstream connection closed mid-relay with the given
  code and reason, ending the upstream-to-client `proxy_task`. -/
  | relayUpstreamClosed (info : CloseInfo)

/-- The close delivered to the client connection by `create_proxy` for each
way the upstream side ends, per the control flow described above. -/
def create_proxy_client_close : UpstreamEvent → CloseInfo
  | .connectClosed info => info
  | .connectFailed => ⟨1008, "Upstream connection failed"⟩
  | .relayUpstreamClosed _ => defaultClose

/-! ### Association-list lemmas -/

section AlistLemmas

variable {β : Type}

theorem alistGet_alistSet_self (fs : List (String × β)) (k : String) (v : β) :
    alistGet (alistSet fs k v) k = some v := by
  induction fs with
  | nil => simp [alistGet, alistSet]
  | cons p rest ih =>
    by_cases h : p.1 = k
    · simp [alistGet, alistSet, h]
    · simp [alistGet, alistSet, h, ih]

theorem alistGet_alistSet_ne (fs : List (String × β)) (k k' : String) (v : β)
    (h : k' ≠ k) : alistGet (alistSet fs k v) k' = alistGet fs k' := by
  have hkk : ¬ k = k' := fun hh => h hh.symm
  induction fs with
  | nil => simp [alistGet, alistSet, hkk]
  | cons p rest ih =>
    obtain ⟨pk, pv⟩ := p
    by_cases hp : pk = k
    · subst hp
      simp [alistGet, alistSet, hkk]
    · simp [alistGet, alistSet, hp, ih]

theorem alistSet_eq_self (fs : List (String × β)) (k : String) (v : β)
    (h : alistGet fs k = some v) : alistSet fs k v = fs := by
  induction fs with
  | nil => simp [alistGet] at h
  | cons p rest ih =>
    obtain ⟨pk, pv⟩ := p
    by_cases hp : pk = k
    · subst hp
      simp only [alistGet, if_pos] at h
      rw [Option.some.injEq] at h
      subst h
      simp [alistSet]
    · simp only [alistGet, hp, ite_false] at h
      simp [alistSet, hp, ih h]

theorem alistSet_alistSet_self (fs : List (String × β)) (k : String) (v w : β) :
    alistSet (alistSet fs k v) k w = alistSet fs k w := by
  induction fs with
  | nil => simp [alistSet]
  | cons p rest ih =>
    by_cases hp : p.1 = k
    · simp [alistSet, hp]
    · simp [alistSet, hp, ih]

theorem alistGet_alistDel_self (fs : List (String × β)) (k : String) :
    alistGet (alistDel fs k) k = none := by
  induction fs with
  | nil => simp [alistGet, alistDel]
  | cons p rest ih =>
    by_cases hp : p.1 = k
    · simp [alistDel, hp, ih]
    · simp [alistGet, alistDel, hp, ih]

theorem alistGet_alistDel_ne (fs : List (String × β)) (k k' : String)
    (h : k' ≠ k) : alistGet (alistDel fs k) k' = alistGet fs k' := by
  induction fs with
  | nil => simp [alistDel]
  | cons p rest ih =>
    obtain ⟨pk, pv⟩ := p
    by_cases hp : pk = k
    · subst hp
      have hkk : ¬ pk = k' := fun hh => h hh.symm
      simp [alistGet, alistDel, hkk, ih]
    · simp [alistGet, alistDel, hp, ih]

theorem alistDel_eq_self (fs : List (String × β)) (k : String)
    (h : alistGet fs k = none) : alistDel fs k = fs := by
  induction fs with
  | nil => simp [alistDel]
  | cons p rest ih =>
    by_cases hp : p.1 = k
    · simp [alistGet, hp] at h
    · simp only [alistGet, hp, if_neg, ite_false] at h
      simp [alistDel, hp, ih h]

theorem alistDel_idem (fs : List (String × β)) (k : String) :
    alistDel (alistDel fs k) k = alistDel fs k :=
  alistDel_eq_self _ _ (alistGet_alistDel_self fs k)

end AlistLemmas

/-! ### Split and substring lemmas

The facts about `splitOnSeq` / `hasInfixSeq` needed to reason about
repeated applications of `extract_model_name`: the split never returns an
empty list; a one-chunk split characterises the absence of the separator;
a one-chunk split returns the whole input; and no chunk of a split (in
particular the last one) contains the separator. -/

theorem splitOnAux_ne_nil (s0 : Char) (srest : List Char) (fuel : Nat) (l : List Char) :
    splitOnAux s0 srest fuel l ≠ [] := by
  cases l with
  | nil => simp [splitOnAux]
  | cons c rest =>
    cases fuel with
    | zero => simp [splitOnAux]
    | succ fuel =>
      simp only [splitOnAux]
      split
      · simp
      · split <;> simp

theorem hasInfix_false_of_split_len_one (s0 : Char) (srest : List Char) (fuel : Nat) :
    ∀ l : List Char, l.length ≤ fuel →
      (splitOnAux s0 srest fuel l).length = 1 → hasInfixSeq (s0 :: srest) l = false := by
  induction fuel with
  | zero =>
    intro l hl _
    have hnil : l = [] := List.length_eq_zero.mp (Nat.le_zero.mp hl)
    subst hnil
    simp [hasInfixSeq, List.isPrefixOf]
  | succ fuel ih =>
    intro l hl hlen
    cases l with
    | nil => simp [hasInfixSeq, List.isPrefixOf]
    | cons c rest =>
      simp only [splitOnAux] at hlen
      by_cases hpre : (s0 :: srest).isPrefixOf (c :: rest) = true
      · rw [if_pos hpre] at hlen
        simp only [List.length_cons, Nat.add_left_eq_self] at hlen
        exact absurd (List.length_eq_zero.mp hlen)
          (splitOnAux_ne_nil s0 srest fuel (rest.drop srest.length))
      · rw [if_neg hpre] at hlen
        have hrest : rest.length ≤ fuel := Nat.succ_le_succ_iff.mp hl
        cases hrec : splitOnAux s0 srest fuel rest with
        | nil => exact absurd hrec (splitOnAux_ne_nil s0 srest fuel rest)
        | cons p ps =>
          rw [hrec] at hlen
          simp only [List.length_cons, Nat.add_left_eq_self] at hlen
          have hps : ps = [] := List.length_eq_zero.mp hlen
          subst hps
          simp only [hasInfixSeq, Bool.or_eq_false_iff]
          refine ⟨Bool.eq_false_iff.mpr hpre, ih rest hrest ?_⟩
          rw [hrec]
          rfl

theorem splitOnAux_eq_singleton (s0 : Char) (srest : List Char) (fuel : Nat) :
    ∀ l x : List Char, l.length ≤ fuel → splitOnAux s0 srest fuel l = [x] → x = l := by
  induction fuel with
  | zero =>
    intro l x hl hx
    have hnil : l = [] := List.length_eq_zero.mp (Nat.le_zero.mp hl)
    subst hnil
    simp only [splitOnAux, List.cons.injEq] at hx
    exact hx.1.symm
  | succ fuel ih =>
    intro l x hl hx
    cases l with
    | nil =>
      simp only [splitOnAux, List.cons.injEq] at hx
      exact hx.1.symm
    | cons c rest =>
      simp only [splitOnAux] at hx
      by_cases hpre : (s0 :: srest).isPrefixOf (c :: rest) = true
      · rw [if_pos hpre] at hx
        simp only [List.cons.injEq] at hx
        exact absurd hx.2 (splitOnAux_ne_nil s0 srest fuel (rest.drop srest.length))
      · rw [if_neg hpre] at hx
        have hrest : rest.length ≤ fuel := Nat.succ_le_succ_iff.mp hl
        cases hrec : splitOnAux s0 srest fuel rest with
        | nil => exact absurd hrec (splitOnAux_ne_nil s0 srest fuel rest)
        | cons p ps =>
          rw [hrec] at hx
          simp only [List.cons.injEq] at hx
          obtain ⟨hx1, hx2⟩ := hx
          subst hx2
          have hp : p = rest := ih rest p hrest hrec
          rw [← hx1, hp]

theorem hasInfix_getLastD_split (s0 : Char) (srest : List Char) (fuel : Nat) :
    ∀ l : List Char, l.length ≤ fuel →
      hasInfixSeq (s0 :: srest) ((splitOnAux s0 srest fuel l).getLastD []) = false := by
  induction fuel with
  | zero =>
    intro l hl
    have hnil : l = [] := List.length_eq_zero.mp (Nat.le_zero.mp hl)
    subst hnil
    simp [splitOnAux, hasInfixSeq, List.isPrefixOf]
  | succ fuel ih =>
    intro l hl
    cases l with
    | nil => simp [splitOnAux, hasInfixSeq, List.isPrefixOf]
    | cons c rest =>
      simp only [splitOnAux]
      by_cases hpre : (s0 :: srest).isPrefixOf (c :: rest) = true
      · rw [if_pos hpre]
        have hdl : (rest.drop srest.length).length ≤ fuel := by
          have := Nat.succ_le_succ_iff.mp hl
          simp only [List.length_drop]
          omega
        cases hrec : splitOnAux s0 srest fuel (rest.drop srest.length) with
        | nil => exact absurd hrec (splitOnAux_ne_nil s0 srest fuel _)
        | cons p ps =>
          rw [List.getLastD_cons]
          have := ih (rest.drop srest.length) hdl
          rwa [hrec] at this
      · rw [if_neg hpre]
        have hrest : rest.length ≤ fuel := Nat.succ_le_succ_iff.mp hl
        cases hrec : splitOnAux s0 srest fuel rest with
        | nil => exact absurd hrec (splitOnAux_ne_nil s0 srest fuel rest)
        | cons p ps =>
          cases ps with
          | nil =>
            have hp : p = rest := splitOnAux_eq_singleton s0 srest fuel rest p hrest hrec
            rw [List.getLastD_cons, List.getLastD_nil, hp]
            simp only [hasInfixSeq, Bool.or_eq_false_iff]
            refine ⟨Bool.eq_false_iff.mpr hpre, ?_⟩
            refine hasInfix_false_of_split_len_one s0 srest fuel rest hrest ?_
            rw [hrec]
            rfl
          | cons q qs =>
            have := ih rest hrest
            rw [hrec, List.getLastD_cons] at this
            rw [List.getLastD_cons]
            cases qs with
            | nil => simpa [List.getLastD_cons] using this
            | cons r rs => simpa [List.getLastD_cons] using this

/-- The character lists of the string literals used by
`extract_model_name`. -/
theorem toList_models_token : "models/".toList = modelsSepRest := rfl

theorem toList_models_sep : "/models/".toList = modelsSep := rfl

/-- No occurrence of "/models/" arises from prepending "models/" to a
string that neither contains "/models/" nor starts with "models/": the
first six characters cannot start an occurrence (they are not '/'), and an
occurrence starting at the seventh character would make the suffix start
with "models/". -/
theorem hasInfix_models_append (g : List Char)
    (h1 : hasInfixSeq modelsSep g = false)
    (h2 : modelsSepRest.isPrefixOf g = false) :
    hasInfixSeq modelsSep (modelsSepRest ++ g) = false := by
  have step : ∀ (c : Char) (t : List Char), (('/' : Char) == c) = false →
      hasInfixSeq modelsSep (c :: t) = hasInfixSeq modelsSep t := by
    intro c t hc
    show hasInfixSeq ('/' :: modelsSepRest) (c :: t) = _
    simp only [hasInfixSeq, List.isPrefixOf, hc, Bool.false_and, Bool.false_or]
    rfl
  show hasInfixSeq modelsSep
    ('m' :: 'o' :: 'd' :: 'e' :: 'l' :: 's' :: '/' :: g) = false
  rw [step 'm' _ (by decide), step 'o' _ (by decide), step 'd' _ (by decide),
      step 'e' _ (by decide), step 'l' _ (by decide), step 's' _ (by decide)]
  show hasInfixSeq ('/' :: modelsSepRest) ('/' :: g) = false
  simp only [hasInfixSeq, List.isPrefixOf, h2, Bool.and_false, Bool.false_or]
  exact h1

/-! ### Lemmas about the model-name rewriting -/

theorem isPrefixOf_append_self (l t : List Char) : l.isPrefixOf (l ++ t) = true := by
  induction l with
  | nil => simp [List.isPrefixOf]
  | cons c cs ih => simp [List.isPrefixOf, ih]

/-- A string of the form "models/" ++ x starts with "models/". -/
theorem strStarts_models_append (x : String) : strStarts ("models/" ++ x) "models/" = true := by
  show List.isPrefixOf "models/".toList ("models/" ++ x).toList = true
  have hdata : ("models/" ++ x).toList = modelsSepRest ++ x.toList := by
    show ("models/" ++ x).data = modelsSepRest ++ x.data
    rw [String.data_append]
    rfl
  rw [hdata, toList_models_token]
  exact isPrefixOf_append_self modelsSepRest x.toList

/-- Appending a string with no "/models/" occurrence and not starting with
"models/" to the "models/" token creates no "/models/" occurrence. -/
theorem hasModelsSub_append (x : String) (h1 : hasModelsSub x = false)
    (h2 : strStarts x "models/" = false) : hasModelsSub ("models/" ++ x) = false := by
  show hasInfixSeq modelsSep ("models/" ++ x).toList = false
  have hdata : ("models/" ++ x).toList = modelsSepRest ++ x.toList := by
    show ("models/" ++ x).data = modelsSepRest ++ x.data
    rw [String.data_append]
    rfl
  rw [hdata]
  exact hasInfix_models_append x.toList h1 h2

/-- The last chunk of the "/models/" split contains no "/models/". -/
theorem hasModelsSub_stripModels (m : String) : hasModelsSub (stripModels m) = false := by
  have h3 := hasInfix_getLastD_split '/' modelsSepRest m.toList.length m.toList le_rfl
  show hasInfixSeq modelsSep ((splitOnSeq '/' modelsSepRest m.toList).getLastD m.toList) = false
  rw [splitOnSeq]
  cases hsp : splitOnAux '/' modelsSepRest m.toList.length m.toList with
  | nil => exact absurd hsp (splitOnAux_ne_nil '/' modelsSepRest m.toList.length m.toList)
  | cons p ps =>
    rw [hsp] at h3
    cases ps with
    | nil => simpa [List.getLastD_cons] using h3
    | cons q qs => simpa [List.getLastD_cons] using h3

/-- A string starting with "models/" is not empty. -/
theorem strStarts_models_ne_empty {E : String} (h : strStarts E "models/" = true) :
    ¬ E = "" := fun hE => by
  rw [hE] at h
  exact absurd h (by decide)

/-- A string starting with "models/" has first character 'm'. -/
theorem strStarts_models_head {E : String} (h : strStarts E "models/" = true) :
    ∃ t, E.toList = 'm' :: t := by
  rw [strStarts, toList_models_token] at h
  cases hl : E.toList with
  | nil =>
    rw [hl] at h
    simp [modelsSepRest, List.isPrefixOf] at h
  | cons c t =>
    rw [hl] at h
    simp only [modelsSepRest, List.isPrefixOf, Bool.and_eq_true, beq_iff_eq] at h
    exact ⟨t, by rw [← h.1]⟩

/-- A string starting with "models/" does not start with "gemini-live-". -/
theorem strStarts_live_of_models {E : String} (h : strStarts E "models/" = true) :
    strStarts E "gemini-live-" = false := by
  obtain ⟨t, ht⟩ := strStarts_models_head h
  rw [strStarts, ht]
  have hgl : "gemini-live-".toList = 'g' :: "emini-live-".toList := rfl
  rw [hgl]
  simp only [List.isPrefixOf, (by decide : (('g' : Char) == 'm') = false), Bool.false_and]

/-- A string starting with "models/" is not a key of the lookup table. -/
theorem alistGet_model_mapping_of_models {E : String} (h : strStarts E "models/" = true) :
    alistGet model_mapping E = none := by
  have hk : ∀ k : String, strStarts k "models/" = false → ¬ (k = E) := by
    intro k hkf he
    rw [he] at hkf
    rw [hkf] at h
    exact Bool.noConfusion h
  simp only [model_mapping, alistGet]
  rw [if_neg (hk _ (by decide)), if_neg (hk _ (by decide)), if_neg (hk _ (by decide)),
      if_neg (hk _ (by decide)), if_neg (hk _ (by decide))]

/-- Every value of the lookup table has no "models/" namespace token, no
"/models/" occurrence, and no "gemini-live-" managed naming scheme. -/
theorem model_mapping_values {n v : String} (h : alistGet model_mapping n = some v) :
    strStarts v "models/" = false ∧ hasModelsSub v = false ∧
      strStarts v "gemini-live-" = false := by
  simp only [model_mapping, alistGet] at h
  split at h
  · rw [Option.some.injEq] at h; subst h; decide
  · split at h
    · rw [Option.some.injEq] at h; subst h; decide
    · split at h
      · rw [Option.some.injEq] at h; subst h; decide
      · split at h
        · rw [Option.some.injEq] at h; subst h; decide
        · split at h
          · rw [Option.some.injEq] at h; subst h; decide
          · exact absurd h (by simp)

/-- A name present in the lookup table maps to its table value. -/
theorem map_of_table (d n v : String) (h : alistGet model_mapping n = some v) :
    map_vertex_ai_to_gemini_api_model d n = v := by
  simp [map_vertex_ai_to_gemini_api_model, h]

/-- A fixed point of the rewriting: a string that starts with "models/" and
contains no "/models/" is returned unchanged by
`map_vertex_ai_to_gemini_api_model` and by `extract_model_name`. -/
theorem map_fixed (d E : String) (h : strStarts E "models/" = true) :
    map_vertex_ai_to_gemini_api_model d E = E := by
  simp [map_vertex_ai_to_gemini_api_model, alistGet_model_mapping_of_models h,
    strStarts_live_of_models h]

theorem extract_fixed (d E : String) (h1 : strStarts E "models/" = true)
    (h2 : hasModelsSub E = false) : extract_model_name d E = E := by
  rw [extract_model_name, if_neg (strStarts_models_ne_empty h1)]
  simp only [h2, Bool.false_eq_true, if_false, map_fixed d E h1, h1, if_true]

/-- Whatever the input, the result of `extract_model_name` starts with the
"models/" namespace token. -/
theorem extract_starts (d m : String) :
    strStarts (extract_model_name d m) "models/" = true := by
  rw [extract_model_name]
  by_cases hm : m = ""
  · rw [if_pos hm]
    exact strStarts_models_append d
  · rw [if_neg hm]
    by_cases hg : strStarts
        (map_vertex_ai_to_gemini_api_model d
          (if hasModelsSub m then stripModels m else m)) "models/" = true
    · simp [hg]
    · simp only [Bool.not_eq_true] at hg
      simp only [hg, Bool.false_eq_true, if_false]
      exact strStarts_models_append _

/-- Whatever the input, the result of `extract_model_name` contains no
"/models/" occurrence, provided the configured default model neither
contains "/models/" nor starts with "models/" (both hold for the shipped
default). -/
theorem extract_noSub (d m : String) (hd1 : hasModelsSub d = false)
    (hd2 : strStarts d "models/" = false) :
    hasModelsSub (extract_model_name d m) = false := by
  rw [extract_model_name]
  by_cases hm : m = ""
  · rw [if_pos hm]
    exact hasModelsSub_append d hd1 hd2
  · rw [if_neg hm]
    have hnsub : hasModelsSub (if hasModelsSub m then stripModels m else m) = false := by
      by_cases hms : hasModelsSub m = true
      · simp only [hms, if_true]
        exact hasModelsSub_stripModels m
      · simp only [Bool.not_eq_true] at hms
        simp [hms]
    rcases htab : alistGet model_mapping (if hasModelsSub m then stripModels m else m)
        with _ | v
    · by_cases hlive : strStarts (if hasModelsSub m then stripModels m else m)
          "gemini-live-" = true
      · have hmap : map_vertex_ai_to_gemini_api_model d
            (if hasModelsSub m then stripModels m else m) = d := by
          simp [map_vertex_ai_to_gemini_api_model, htab, hlive]
        simp only [hmap, hd2, Bool.false_eq_true, if_false]
        exact hasModelsSub_append d hd1 hd2
      · simp only [Bool.not_eq_true] at hlive
        have hmap : map_vertex_ai_to_gemini_api_model d
            (if hasModelsSub m then stripModels m else m) =
            (if hasModelsSub m then stripModels m else m) := by
          simp [map_vertex_ai_to_gemini_api_model, htab, hlive]
        by_cases hsn : strStarts (if hasModelsSub m then stripModels m else m)
            "models/" = true
        · simp only [hmap, hsn, if_true]
          exact hnsub
        · simp only [Bool.not_eq_true] at hsn
          simp only [hmap, hsn, Bool.false_eq_true, if_false]
          exact hasModelsSub_append _ hnsub hsn
    · have hmap : map_vertex_ai_to_gemini_api_model d
          (if hasModelsSub m then stripModels m else m) = v := map_of_table d _ v htab
      obtain ⟨hv1, hv2, _⟩ := model_mapping_values htab
      simp only [hmap, hv1, Bool.false_eq_true, if_false]
      exact hasModelsSub_append v hv2 hv1

/-- Idempotence of the model-name rewriting (for a well-formed configured
default). -/
theorem extract_model_name_idem (d m : String) (hd1 : hasModelsSub d = false)
    (hd2 : strStarts d "models/" = false) :
    extract_model_name d (extract_model_name d m) = extract_model_name d m :=
  extract_fixed d _ (extract_starts d m) (extract_noSub d m hd1 hd2)

/-- A model uri whose extracted name (the part after the last "/models/",
or the whole uri) is in the lookup table maps to the table value with "models/"
prepended. -/
theorem extract_of_table (d m v : String)
    (hv : alistGet model_mapping (if hasModelsSub m then stripModels m else m) = some v) :
    extract_model_name d m = "models/" ++ v := by
  have hm0 : ¬ m = "" := by
    intro he
    subst he
    rw [(by decide : alistGet model_mapping
        (if hasModelsSub "" then stripModels "" else "") = (none : Option String))] at hv
    exact Option.noConfusion hv
  rw [extract_model_name, if_neg hm0]
  simp only [map_of_table d _ v hv]
  obtain ⟨hv1, _, _⟩ := model_mapping_values hv
  simp only [hv1, Bool.false_eq_true, if_false]

/-- A name that does not use the managed "gemini-live-" naming scheme is
left unchanged by `map_vertex_ai_to_gemini_api_model`: the table's
non-managed entries all map to themselves. -/
theorem map_nonlive_id (d n : String) (hlive : strStarts n "gemini-live-" = false) :
    map_vertex_ai_to_gemini_api_model d n = n := by
  rcases htab : alistGet model_mapping n with _ | v
  · simp [map_vertex_ai_to_gemini_api_model, htab, hlive]
  · have hv : v = n := by
      simp only [model_mapping, alistGet] at htab
      split at htab
      · rename_i hcond
        rw [← hcond] at hlive
        exact absurd hlive (by decide)
      · split at htab
        · rename_i hcond
          rw [← hcond] at hlive
          exact absurd hlive (by decide)
        · split at htab
          · rename_i hcond
            rw [Option.some.injEq] at htab
            rw [← htab, ← hcond]
          · split at htab
            · rename_i hcond
              rw [Option.some.injEq] at htab
              rw [← htab, ← hcond]
            · split at htab
              · rename_i hcond
                rw [Option.some.injEq] at htab
                rw [← htab, ← hcond]
              · exact absurd htab (by simp)
    subst hv
    simp [map_vertex_ai_to_gemini_api_model, htab]

/-! ### Transformer lemmas -/

/-- A generation_config value surviving `stripGenConfig` as an object has
no "enable_affective_dialog" entry. -/
theorem stripGenConfig_obj (w : Json) (g' : List (String × Json))
    (h : stripGenConfig w = some (.obj g')) :
    alistGet g' "enable_affective_dialog" = none := by
  cases w with
  | obj g =>
    simp only [stripGenConfig, Option.some.injEq, Json.obj.injEq] at h
    subst h
    exact alistGet_alistDel_self g "enable_affective_dialog"
  | str s2 =>
    simp only [stripGenConfig] at h
    by_cases hc : hasInfixSeq "enable_affective_dialog".toList s2.toList = true
    · rw [if_pos hc] at h
      exact Option.noConfusion h
    · rw [if_neg hc] at h
      exact absurd (Option.some.inj h) (by simp)
  | arr es =>
    simp only [stripGenConfig] at h
    by_cases hc : es.contains (.str "enable_affective_dialog") = true
    · rw [if_pos hc] at h
      exact Option.noConfusion h
    · rw [if_neg hc] at h
      exact absurd (Option.some.inj h) (by simp)
  | null => exact Option.noConfusion h
  | bool b => exact Option.noConfusion h
  | num n => exact Option.noConfusion h

/-- The image of `stripGenConfig` consists of its fixed points. -/
theorem stripGenConfig_idem (w w' : Json) (h : stripGenConfig w = some w') :
    stripGenConfig w' = some w' := by
  cases w with
  | obj g =>
    simp only [stripGenConfig, Option.some.injEq] at h
    subst h
    simp only [stripGenConfig, alistDel_idem]
  | str s2 =>
    simp only [stripGenConfig] at h
    by_cases hc : hasInfixSeq "enable_affective_dialog".toList s2.toList = true
    · rw [if_pos hc] at h
      exact Option.noConfusion h
    · rw [if_neg hc] at h
      have hw := Option.some.inj h
      subst hw
      simp only [stripGenConfig]
      rw [if_neg hc]
  | arr es =>
    simp only [stripGenConfig] at h
    by_cases hc : es.contains (.str "enable_affective_dialog") = true
    · rw [if_pos hc] at h
      exact Option.noConfusion h
    · rw [if_neg hc] at h
      have hw := Option.some.inj h
      subst hw
      simp only [stripGenConfig]
      rw [if_neg hc]
  | null => exact Option.noConfusion h
  | bool b => exact Option.noConfusion h
  | num n => exact Option.noConfusion h

/-- On a string model value, `extractModelValue` is the string-level
rewriting. -/
theorem extractModelValue_str (d m : String) :
    extractModelValue d (.str m) = some (extract_model_name d m) := rfl

/-- Every string produced by `extractModelValue` is a fixed point of
`extract_model_name` (for a configured default that contains no
"/models/" and does not start with "models/"). -/
theorem extractModelValue_fixed (d : String) (hd1 : hasModelsSub d = false)
    (hd2 : strStarts d "models/" = false) (v : Json) (E : String)
    (h : extractModelValue d v = some E) : extract_model_name d E = E := by
  have hdefault : extract_model_name d ("models/" ++ d) = "models/" ++ d :=
    extract_fixed d ("models/" ++ d) (strStarts_models_append d)
      (hasModelsSub_append d hd1 hd2)
  cases v with
  | str m =>
    simp only [extractModelValue, Option.some.injEq] at h
    subst h
    exact extract_model_name_idem d m hd1 hd2
  | null =>
    simp only [extractModelValue, pyTruthy, Bool.false_eq_true, if_false,
      Option.some.injEq] at h
    subst h
    exact hdefault
  | bool b =>
    cases b with
    | true => simp [extractModelValue, pyTruthy] at h
    | false =>
      simp only [extractModelValue, pyTruthy, Bool.false_eq_true, if_false,
        Option.some.injEq] at h
      subst h
      exact hdefault
  | num n =>
    simp only [extractModelValue, pyTruthy] at h
    by_cases hn : (n != 0) = true
    · rw [if_pos hn] at h
      exact Option.noConfusion h
    · rw [if_neg hn] at h
      have hE := Option.some.inj h
      subst hE
      exact hdefault
  | arr es =>
    simp only [extractModelValue, pyTruthy] at h
    by_cases hn : (!es.isEmpty) = true
    · rw [if_pos hn] at h
      exact Option.noConfusion h
    · rw [if_neg hn] at h
      have hE := Option.some.inj h
      subst hE
      exact hdefault
  | obj fs =>
    simp only [extractModelValue, pyTruthy] at h
    by_cases hn : (!fs.isEmpty) = true
    · rw [if_pos hn] at h
      exact Option.noConfusion h
    · rw [if_neg hn] at h
      have hE := Option.some.inj h
      subst hE
      exact hdefault

/-- What the field-stripping phase guarantees about its result. -/
theorem stripUnsupported_spec (s1 t : List (String × Json)) (h : stripUnsupported s1 = some t) :
    alistGet t "proactivity" = none ∧
    (alistGet s1 "generation_config" = none → alistGet t "generation_config" = none) ∧
    (∀ w w', alistGet s1 "generation_config" = some w → stripGenConfig w = some w' →
        alistGet t "generation_config" = some w') ∧
    (∀ w, alistGet s1 "generation_config" = some w → ∃ w', stripGenConfig w = some w') ∧
    (∀ k, ¬ k = "proactivity" → ¬ k = "generation_config" →
        alistGet t k = alistGet s1 k) := by
  have hdel : alistGet (alistDel s1 "proactivity") "generation_config" =
      alistGet s1 "generation_config" :=
    alistGet_alistDel_ne s1 "proactivity" "generation_config" (by decide)
  rcases hg : alistGet (alistDel s1 "proactivity") "generation_config" with _ | w
  · simp only [stripUnsupported, hg] at h
    rw [Option.some.injEq] at h
    subst h
    rw [hdel] at hg
    refine ⟨alistGet_alistDel_self s1 "proactivity", ?_, ?_, ?_, ?_⟩
    · intro _
      rw [hdel]
      exact hg
    · intro w w' hw _
      rw [hw] at hg
      exact Option.noConfusion hg
    · intro w hw
      rw [hw] at hg
      exact Option.noConfusion hg
    · intro k h1 _
      exact alistGet_alistDel_ne s1 "proactivity" k h1
  · simp only [stripUnsupported, hg] at h
    rcases hsg : stripGenConfig w with _ | gc'
    · simp only [hsg] at h
      exact Option.noConfusion h
    · simp only [hsg, Option.some.injEq] at h
      subst h
      rw [hdel] at hg
      refine ⟨?_, ?_, ?_, ?_, ?_⟩
      · rw [alistGet_alistSet_ne _ "generation_config" "proactivity" _ (by decide)]
        exact alistGet_alistDel_self s1 "proactivity"
      · intro hnone
        rw [hnone] at hg
        exact Option.noConfusion hg
      · intro w2 w2' hw2 hsg2
        have hww : w = w2 := Option.some.inj (hg.symm.trans hw2)
        subst hww
        have hgc : gc' = w2' := Option.some.inj (hsg.symm.trans hsg2)
        subst hgc
        exact alistGet_alistSet_self _ "generation_config" _
      · intro w2 hw2
        have hww : w = w2 := Option.some.inj (hg.symm.trans hw2)
        subst hww
        exact ⟨gc', hsg⟩
      · intro k h1 h2
        rw [alistGet_alistSet_ne _ "generation_config" k _ h2,
            alistGet_alistDel_ne s1 "proactivity" k h1]

/-- What the full setup transformation guarantees about its result. -/
theorem transformSetup_spec (d : String) (s t : List (String × Json))
    (h : transformSetup d s = some t) :
    (∀ v E, alistGet s "model" = some v → extractModelValue d v = some E →
        alistGet t "model" = some (.str E)) ∧
    (alistGet s "model" = none → alistGet t "model" = none) ∧
    alistGet t "proactivity" = none ∧
    (alistGet s "generation_config" = none → alistGet t "generation_config" = none) ∧
    (∀ w w', alistGet s "generation_config" = some w → stripGenConfig w = some w' →
        alistGet t "generation_config" = some w') ∧
    (∀ w, alistGet s "generation_config" = some w → ∃ w', stripGenConfig w = some w') ∧
    (∀ v, alistGet s "model" = some v → ∃ E, extractModelValue d v = some E) ∧
    (∀ k, ¬ k = "model" → ¬ k = "proactivity" → ¬ k = "generation_config" →
        alistGet t k = alistGet s k) := by
  rcases hm : alistGet s "model" with _ | v
  · simp only [transformSetup, hm] at h
    obtain ⟨c1, c2, c3, c4, c5⟩ := stripUnsupported_spec s t h
    refine ⟨?_, ?_, c1, c2, c3, c4, ?_, ?_⟩
    · intro v E hm2 _
      exact Option.noConfusion hm2
    · intro _
      rw [c5 "model" (by decide) (by decide)]
      exact hm
    · intro v hm2
      exact Option.noConfusion hm2
    · intro k _ h2 h3
      exact c5 k h2 h3
  · simp only [transformSetup, hm] at h
    rcases hev : extractModelValue d v with _ | E
    · simp only [hev] at h
      exact Option.noConfusion h
    · simp only [hev] at h
      obtain ⟨c1, c2, c3, c4, c5⟩ :=
        stripUnsupported_spec (alistSet s "model" (.str E)) t h
      have hset_model : alistGet (alistSet s "model" (.str E)) "model" = some (.str E) :=
        alistGet_alistSet_self s "model" (.str E)
      have hset_gc : alistGet (alistSet s "model" (.str E)) "generation_config" =
          alistGet s "generation_config" :=
        alistGet_alistSet_ne s "model" "generation_config" (.str E) (by decide)
      refine ⟨?_, ?_, c1, ?_, ?_, ?_, ?_, ?_⟩
      · intro v2 E2 hm2 hE2
        have hv : v = v2 := Option.some.inj hm2
        subst hv
        have hE12 : E = E2 := Option.some.inj (hev.symm.trans hE2)
        subst hE12
        rw [c5 "model" (by decide) (by decide), hset_model]
      · intro hnone
        exact Option.noConfusion hnone
      · intro hgc
        refine c2 ?_
        rw [hset_gc]
        exact hgc
      · intro w w' hw hsg
        refine c3 w w' ?_ hsg
        rw [hset_gc]
        exact hw
      · intro w hw
        refine c4 w ?_
        rw [hset_gc]
        exact hw
      · intro v2 hm2
        have hv : v = v2 := Option.some.inj hm2
        subst hv
        exact ⟨E, hev⟩
      · intro k h1 h2 h3
        rw [c5 k h2 h3, alistGet_alistSet_ne s "model" k _ h1]

/-- After the transformation, whatever object the "generation_config"
entry holds has no "enable_affective_dialog" entry. -/
theorem transformSetup_ead_none (d : String) (s t : List (String × Json))
    (ht : transformSetup d s = some t) :
    ∀ g', alistGet t "generation_config" = some (.obj g') →
      alistGet g' "enable_affective_dialog" = none := by
  obtain ⟨_, _, _, c4, c5, c6, _, _⟩ := transformSetup_spec d s t ht
  intro g' hg'
  rcases hgs : alistGet s "generation_config" with _ | w
  · rw [c4 hgs] at hg'
    exact Option.noConfusion hg'
  · obtain ⟨w', hw'⟩ := c6 w hgs
    have htgc := c5 w w' hgs hw'
    have hobj : w' = .obj g' := Option.some.inj (htgc.symm.trans hg')
    subst hobj
    exact stripGenConfig_obj w g' hw'

/-- A setup object already in post-transformation shape passes the
stripping phase unchanged. -/
theorem stripUnsupported_fixed (t : List (String × Json))
    (hp : alistGet t "proactivity" = none)
    (hgc : alistGet t "generation_config" = none ∨
        ∃ w, alistGet t "generation_config" = some w ∧ stripGenConfig w = some w) :
    stripUnsupported t = some t := by
  have hdel : alistDel t "proactivity" = t := alistDel_eq_self t "proactivity" hp
  rcases hgc with hnone | ⟨w, hw, hfix⟩
  · simp only [stripUnsupported, hdel, hnone]
  · simp only [stripUnsupported, hdel, hw, hfix]
    rw [alistSet_eq_self t "generation_config" w hw]

/-- Idempotence of the setup transformation, for a configured default model
that neither contains "/models/" nor starts with "models/". -/
theorem transformSetup_idem (d : String) (hd1 : hasModelsSub d = false)
    (hd2 : strStarts d "models/" = false) (s t : List (String × Json))
    (h : transformSetup d s = some t) : transformSetup d t = some t := by
  obtain ⟨c1, c2, c3, c4, c5, c6, c7, c8⟩ := transformSetup_spec d s t h
  have hgcfact : alistGet t "generation_config" = none ∨
      ∃ w, alistGet t "generation_config" = some w ∧ stripGenConfig w = some w := by
    rcases hgs : alistGet s "generation_config" with _ | w
    · exact Or.inl (c4 hgs)
    · obtain ⟨w', hw'⟩ := c6 w hgs
      exact Or.inr ⟨w', c5 w w' hgs hw', stripGenConfig_idem w w' hw'⟩
  have hfix : stripUnsupported t = some t := stripUnsupported_fixed t c3 hgcfact
  rcases htm : alistGet t "model" with _ | w
  · simp only [transformSetup, htm]
    exact hfix
  · rcases hm : alistGet s "model" with _ | v
    · rw [c2 hm] at htm
      exact Option.noConfusion htm
    · obtain ⟨E, hE⟩ := c7 v hm
      have htE := c1 v E hm hE
      have hw : w = .str E := Option.some.inj (htm.symm.trans htE)
      subst hw
      have hEfix : extract_model_name d E = E := extractModelValue_fixed d hd1 hd2 v E hE
      simp only [transformSetup, htm, extractModelValue, hEfix]
      rw [alistSet_eq_self t "model" (.str E) htE]
      exact hfix

/-- Unfolding of the per-message transformation on an object message with
an object-valued "setup" entry. -/
theorem transformData_obj_setup (d : String) (fs s : List (String × Json)) (y : Json)
    (hs : alistGet fs "setup" = some (.obj s))
    (h : transformData d (.obj fs) = some y) :
    ∃ s', transformSetup d s = some s' ∧ y = .obj (alistSet fs "setup" (.obj s')) := by
  simp only [transformData, hs] at h
  rcases hts : transformSetup d s with _ | s'
  · rw [hts] at h
    exact Option.noConfusion h
  · rw [hts] at h
    rw [Option.some.injEq] at h
    exact ⟨s', rfl, h.symm⟩

/-- Idempotence of the per-message transformation. -/
theorem transformData_idem (d : String) (hd1 : hasModelsSub d = false)
    (hd2 : strStarts d "models/" = false) (x y : Json)
    (h : transformData d x = some y) : transformData d y = some y := by
  cases x with
  | obj fs =>
    rcases hs : alistGet fs "setup" with _ | w
    · simp only [transformData, hs] at h
      rw [Option.some.injEq] at h
      subst h
      simp [transformData, hs]
    · cases w with
      | obj s =>
        obtain ⟨s', hts, rfl⟩ := transformData_obj_setup d fs s y hs h
        have hset : alistGet (alistSet fs "setup" (.obj s')) "setup" = some (.obj s') :=
          alistGet_alistSet_self fs "setup" (.obj s')
        have hidem := transformSetup_idem d hd1 hd2 s s' hts
        simp only [transformData, hset, hidem, Option.some.injEq, alistSet_alistSet_self]
      | str s2 =>
        simp only [transformData, hs] at h
        by_cases hc : (hasInfixSeq "model".toList s2.toList
            || hasInfixSeq "proactivity".toList s2.toList
            || hasInfixSeq "generation_config".toList s2.toList) = true
        · rw [if_pos hc] at h
          exact Option.noConfusion h
        · rw [if_neg hc] at h
          rw [Option.some.injEq] at h
          subst h
          simp only [transformData, hs]
          rw [if_neg hc]
      | arr a =>
        simp only [transformData, hs] at h
        by_cases hc : (a.contains (.str "model") || a.contains (.str "proactivity")
            || a.contains (.str "generation_config")) = true
        · rw [if_pos hc] at h
          exact Option.noConfusion h
        · rw [if_neg hc] at h
          rw [Option.some.injEq] at h
          subst h
          simp only [transformData, hs]
          rw [if_neg hc]
      | null => simp [transformData, hs] at h
      | bool b => simp [transformData, hs] at h
      | num n => simp [transformData, hs] at h
  | arr elems =>
    simp only [transformData] at h
    by_cases hc : elems.contains (.str "setup") = true
    · rw [if_pos hc] at h
      exact Option.noConfusion h
    · rw [if_neg hc] at h
      rw [Option.some.injEq] at h
      subst h
      simp only [transformData]
      rw [if_neg hc]
  | str s2 =>
    simp only [transformData] at h
    by_cases hc : hasInfixSeq "setup".toList s2.toList = true
    · rw [if_pos hc] at h
      exact Option.noConfusion h
    · rw [if_neg hc] at h
      rw [Option.some.injEq] at h
      subst h
      simp only [transformData]
      rw [if_neg hc]
  | null => simp [transformData] at h
  | bool b => simp [transformData] at h
  | num n => simp [transformData] at h

/-! ### Forwarding-loop lemmas -/

/-- The `async for` loop consumes every message the source delivers: its
iteration count is the length of the source's message list, regardless of
the destination's state (in particular, failed writes do not end it). -/
theorem proxy_task_loop_count (defaultModel : String) (t s : Bool)
    (msgs : List Json) (dest : DestState) :
    (proxy_task_loop defaultModel t s msgs dest).1 = msgs.length := by
  induction msgs generalizing dest with
  | nil => rfl
  | cons m rest ih => simp [proxy_task_loop, ih]

/-- A closed destination swallows every write: running the loop against a
closed destination leaves its state unchanged. -/
theorem proxy_task_loop_closed (defaultModel : String) (t s : Bool)
    (msgs : List Json) (sent : List Json) :
    (proxy_task_loop defaultModel t s msgs ⟨true, sent⟩).2 = ⟨true, sent⟩ := by
  induction msgs with
  | nil => rfl
  | cons m rest ih =>
    simp only [proxy_task_loop]
    cases processMessage defaultModel t s m <;> simp [sendJson, ih]

/-- Against an open destination, the loop writes exactly the per-message
results of `processMessage`, in order, dropping the messages whose handler
raised. -/
theorem proxy_task_loop_open (defaultModel : String) (t s : Bool)
    (msgs : List Json) (sent : List Json) :
    (proxy_task_loop defaultModel t s msgs ⟨false, sent⟩).2 =
      ⟨false, sent ++ msgs.filterMap (processMessage defaultModel t s)⟩ := by
  induction msgs generalizing sent with
  | nil => simp [proxy_task_loop]
  | cons m rest ih =>
    simp only [proxy_task_loop, List.filterMap_cons]
    cases h : processMessage defaultModel t s m with
    | none => simp [h, ih]
    | some v => simp [h, sendJson, ih]

/-- With the transformation disabled (as in every upstream-to-client loop
and in the managed variant), each message passes through unchanged. -/
theorem processMessage_no_transform (defaultModel : String) (s : Bool) (m : Json) :
    processMessage defaultModel false s m = some m := rfl

/-! ### Claim theorems -/

/-- C1: for every direct-key setup message whose model field names (after
extracting the part following any "/models/" path segment) a model present
in the lookup table, the transformed model field equals the table's mapped
value prefixed with the "models/" namespace token; in particular, the
setup message with model "gemini-live-2.5-flash-native-audio" and a
"proactivity" field is forwarded as model
"models/gemini-2.5-flash-native-audio-preview-12-2025" with "proactivity"
absent. -/
theorem C1_table_model_mapped (defaultModel m v : String)
    (s t : List (String × Json))
    (hm : alistGet s "model" = some (.str m))
    (hv : alistGet model_mapping (if hasModelsSub m then stripModels m else m) = some v)
    (ht : transformSetup defaultModel s = some t) :
    alistGet t "model" = some (.str ("models/" ++ v)) ∧
    transformData DEFAULT_MODEL
        (.obj [("setup", .obj [("model", .str "gemini-live-2.5-flash-native-audio"),
          ("proactivity", .obj [])])]) =
      some (.obj [("setup",
        .obj [("model", .str "models/gemini-2.5-flash-native-audio-preview-12-2025")])]) := by
  constructor
  · obtain ⟨c1, _⟩ := transformSetup_spec defaultModel s t ht
    rw [c1 (.str m) (extract_model_name defaultModel m) hm (extractModelValue_str defaultModel m),
      extract_of_table defaultModel m v hv]
  · decide

theorem C1_witness :
    alistGet [("model",
        Json.str "models/gemini-2.5-flash-native-audio-preview-12-2025")] "model" =
      some (Json.str ("models/" ++ "gemini-2.5-flash-native-audio-preview-12-2025")) ∧
    transformData DEFAULT_MODEL
        (.obj [("setup", .obj [("model", .str "gemini-live-2.5-flash-native-audio"),
          ("proactivity", .obj [])])]) =
      some (.obj [("setup",
        .obj [("model", .str "models/gemini-2.5-flash-native-audio-preview-12-2025")])]) :=
  C1_table_model_mapped DEFAULT_MODEL "gemini-live-2.5-flash-native-audio"
    "gemini-2.5-flash-native-audio-preview-12-2025"
    [("model", .str "gemini-live-2.5-flash-native-audio"), ("proactivity", .obj [])]
    [("model", .str "models/gemini-2.5-flash-native-audio-preview-12-2025")]
    (by decide) (by decide) (by decide)

/-- C3 (counterexample): a setup message with no model field does not pass
through unmodified — the "proactivity" field is still removed. -/
theorem C3_counterexample :
    transformData DEFAULT_MODEL (.obj [("setup", .obj [("proactivity", .bool true)])]) =
      some (.obj [("setup", .obj [])]) ∧
    ¬ (Json.obj [("setup", Json.obj [])] =
        Json.obj [("setup", Json.obj [("proactivity", Json.bool true)])]) := by
  decide

/-- C3 (amended): if the model field is absent from the setup section, the
model rewriting is skipped (the model field stays absent), but the
unsupported-field stripping still applies: "proactivity" and the
generation_config's "enable_affective_dialog" are removed, and only they
are — every key other than "proactivity" and "generation_config" is
unchanged. -/
theorem C3_absent_model_still_strips (defaultModel : String) (s t : List (String × Json))
    (hm : alistGet s "model" = none)
    (ht : transformSetup defaultModel s = some t) :
    alistGet t "model" = none ∧
    alistGet t "proactivity" = none ∧
    (∀ g', alistGet t "generation_config" = some (.obj g') →
        alistGet g' "enable_affective_dialog" = none) ∧
    (∀ k, ¬ k = "proactivity" → ¬ k = "generation_config" →
        alistGet t k = alistGet s k) := by
  obtain ⟨c1, c2, c3, c4, c5, c6, c7, c8⟩ := transformSetup_spec defaultModel s t ht
  refine ⟨c2 hm, c3, transformSetup_ead_none defaultModel s t ht, ?_⟩
  intro k h1 h2
  by_cases hk : k = "model"
  · subst hk
    rw [c2 hm, hm]
  · exact c8 k hk h1 h2

theorem C3_witness :
    alistGet [("temperature", Json.num 1)] "model" = none ∧
    alistGet [("temperature", Json.num 1)] "proactivity" = none ∧
    (∀ g', alistGet [("temperature", Json.num 1)] "generation_config" = some (.obj g') →
        alistGet g' "enable_affective_dialog" = none) ∧
    (∀ k, ¬ k = "proactivity" → ¬ k = "generation_config" →
        alistGet [("temperature", Json.num 1)] k =
          alistGet [("proactivity", Json.bool true), ("temperature", Json.num 1)] k) :=
  C3_absent_model_still_strips DEFAULT_MODEL
    [("proactivity", Json.bool true), ("temperature", Json.num 1)]
    [("temperature", Json.num 1)] (by decide) (by decide)

/-- C8: the setup-message transformer is idempotent — applying it twice to
a message yields the same result as applying it once (for a configured
default model that contains no "/models/" and does not start with
"models/", as the shipped default does). -/
theorem C8_transformer_idempotent (defaultModel : String)
    (hd1 : hasModelsSub defaultModel = false)
    (hd2 : strStarts defaultModel "models/" = false)
    (x y : Json) (h : transformData defaultModel x = some y) :
    transformData defaultModel y = some y :=
  transformData_idem defaultModel hd1 hd2 x y h

theorem C8_witness :
    transformData DEFAULT_MODEL
        (.obj [("setup",
          .obj [("model", .str "models/gemini-2.5-flash-native-audio-preview-12-2025")])]) =
      some (.obj [("setup",
        .obj [("model", .str "models/gemini-2.5-flash-native-audio-preview-12-2025")])]) :=
  C8_transformer_idempotent DEFAULT_MODEL (by decide) (by decide)
    (.obj [("setup", .obj [("model", .str "gemini-live-2.5-flash-native-audio"),
      ("proactivity", .obj [])])])
    (.obj [("setup",
      .obj [("model", .str "models/gemini-2.5-flash-native-audio-preview-12-2025")])])
    (by decide)

/-- C6: a model name using the managed "gemini-live-" naming scheme but
absent from the lookup table is replaced by the configured default model
prefixed with the namespace token; a name without the managed naming
scheme passes through unchanged, apart from ensuring the "models/"
namespace token.  (Stated for plain model names — names containing no
"/models/" path segment — and for a configured default that does not
already carry the namespace token, as the shipped default does.) -/
theorem C6_unknown_live_defaults (defaultModel name : String)
    (hseg : hasModelsSub name = false)
    (hne : ¬ name = "")
    (hdef : strStarts defaultModel "models/" = false) :
    (strStarts name "gemini-live-" = true →
      alistGet model_mapping name = none →
      extract_model_name defaultModel name = "models/" ++ defaultModel) ∧
    (strStarts name "gemini-live-" = false →
      extract_model_name defaultModel name =
        (if strStarts name "models/" then name else "models/" ++ name)) := by
  constructor
  · intro hlive htab
    rw [extract_model_name, if_neg hne]
    simp only [hseg, Bool.false_eq_true, if_false]
    have hmap : map_vertex_ai_to_gemini_api_model defaultModel name = defaultModel := by
      simp [map_vertex_ai_to_gemini_api_model, htab, hlive]
    simp only [hmap, hdef, Bool.false_eq_true, if_false]
  · intro hlive
    rw [extract_model_name, if_neg hne]
    simp only [hseg, Bool.false_eq_true, if_false,
      map_nonlive_id defaultModel name hlive]

theorem C6_witness :
    (strStarts "gemini-live-zzz" "gemini-live-" = true →
      alistGet model_mapping "gemini-live-zzz" = none →
      extract_model_name DEFAULT_MODEL "gemini-live-zzz" = "models/" ++ DEFAULT_MODEL) ∧
    (strStarts "gemini-live-zzz" "gemini-live-" = false →
      extract_model_name DEFAULT_MODEL "gemini-live-zzz" =
        (if strStarts "gemini-live-zzz" "models/" then "gemini-live-zzz"
         else "models/" ++ "gemini-live-zzz")) :=
  C6_unknown_live_defaults DEFAULT_MODEL "gemini-live-zzz" (by decide) (by decide) (by decide)

/-- C10: when the model field contains a "/models/" path segment, only the
part after the last such segment (in the left-to-right split) is fed to
the name mapping — so a full Vertex resource path is mapped from its final
model component — and a present-but-empty model field is rewritten to the
configured default with the "models/" namespace token. -/
theorem C10_path_and_empty_model (defaultModel uri : String) (s t : List (String × Json))
    (hsub : hasModelsSub uri = true)
    (hm : alistGet s "model" = some (.str ""))
    (ht : transformSetup defaultModel s = some t) :
    extract_model_name defaultModel uri =
      (if strStarts (map_vertex_ai_to_gemini_api_model defaultModel (stripModels uri))
          "models/"
       then map_vertex_ai_to_gemini_api_model defaultModel (stripModels uri)
       else "models/" ++ map_vertex_ai_to_gemini_api_model defaultModel (stripModels uri)) ∧
    extract_model_name DEFAULT_MODEL
        "projects/my-project/locations/us-central1/publishers/google/models/gemini-live-2.5-flash-native-audio" =
      "models/gemini-2.5-flash-native-audio-preview-12-2025" ∧
    alistGet t "model" = some (.str ("models/" ++ defaultModel)) := by
  refine ⟨?_, by decide, ?_⟩
  · have hne : ¬ uri = "" := by
      intro he
      subst he
      exact absurd hsub (by decide)
    rw [extract_model_name, if_neg hne]
    simp only [hsub, if_true]
  · obtain ⟨c1, _⟩ := transformSetup_spec defaultModel s t ht
    rw [c1 (.str "") (extract_model_name defaultModel "") hm
      (extractModelValue_str defaultModel "")]
    rw [show extract_model_name defaultModel "" = "models/" ++ defaultModel from by
      rw [extract_model_name, if_pos rfl]]

theorem C10_witness :
    extract_model_name DEFAULT_MODEL "a/models/b" =
      (if strStarts (map_vertex_ai_to_gemini_api_model DEFAULT_MODEL
          (stripModels "a/models/b")) "models/"
       then map_vertex_ai_to_gemini_api_model DEFAULT_MODEL (stripModels "a/models/b")
       else "models/" ++
         map_vertex_ai_to_gemini_api_model DEFAULT_MODEL (stripModels "a/models/b")) ∧
    extract_model_name DEFAULT_MODEL
        "projects/my-project/locations/us-central1/publishers/google/models/gemini-live-2.5-flash-native-audio" =
      "models/gemini-2.5-flash-native-audio-preview-12-2025" ∧
    alistGet [("model", Json.str ("models/" ++ DEFAULT_MODEL))] "model" =
      some (Json.str ("models/" ++ DEFAULT_MODEL)) :=
  C10_path_and_empty_model DEFAULT_MODEL "a/models/b"
    [("model", Json.str "")] [("model", Json.str ("models/" ++ DEFAULT_MODEL))]
    (by decide) (by decide) (by decide)

/-- C7 (counterexample): the model field is not in the unsupported-field
set, yet it is not preserved unchanged — the claim's frame condition
"every other field of the message is preserved" fails at the model
field. -/
theorem C7_counterexample :
    transformData DEFAULT_MODEL
        (.obj [("setup", .obj [("model", .str "gemini-live-2.5-flash-native-audio")])]) =
      some (.obj [("setup",
        .obj [("model", .str "models/gemini-2.5-flash-native-audio-preview-12-2025")])]) ∧
    ¬ (alistGet [("model",
          Json.str "models/gemini-2.5-flash-native-audio-preview-12-2025")] "model" =
        alistGet [("model", Json.str "gemini-live-2.5-flash-native-audio")] "model") := by
  decide

/-- C7 (amended): for every setup message, the unsupported fields
("proactivity" in the setup section, "enable_affective_dialog" in the
nested generation_config) are absent after transformation, and every other
field — except the setup's model field, which is remapped — is preserved
unchanged: message fields other than "setup" keep their values, setup
fields other than "model", "proactivity" and "generation_config" keep
their values, and generation_config fields other than
"enable_affective_dialog" keep their values. -/
theorem C7_frame (defaultModel : String) (fields s : List (String × Json)) (y : Json)
    (hs : alistGet fields "setup" = some (.obj s))
    (h : transformData defaultModel (.obj fields) = some y) :
    ∃ s', transformSetup defaultModel s = some s' ∧
      y = .obj (alistSet fields "setup" (.obj s')) ∧
      alistGet s' "proactivity" = none ∧
      (∀ g', alistGet s' "generation_config" = some (.obj g') →
          alistGet g' "enable_affective_dialog" = none) ∧
      (∀ k, ¬ k = "setup" →
          alistGet (alistSet fields "setup" (.obj s')) k = alistGet fields k) ∧
      (∀ k, ¬ k = "model" → ¬ k = "proactivity" → ¬ k = "generation_config" →
          alistGet s' k = alistGet s k) ∧
      (∀ g g' k, alistGet s "generation_config" = some (.obj g) →
          alistGet s' "generation_config" = some (.obj g') →
          ¬ k = "enable_affective_dialog" → alistGet g' k = alistGet g k) := by
  obtain ⟨s', hts, hy⟩ := transformData_obj_setup defaultModel fields s y hs h
  obtain ⟨c1, c2, c3, c4, c5, c6, c7, c8⟩ := transformSetup_spec defaultModel s s' hts
  refine ⟨s', hts, hy, c3, transformSetup_ead_none defaultModel s s' hts, ?_, c8, ?_⟩
  · intro k hk
    exact alistGet_alistSet_ne fields "setup" k (.obj s') hk
  · intro g g' k hg hg' hk
    have hs'gc := c5 (.obj g) (.obj (alistDel g "enable_affective_dialog")) hg rfl
    have heq := Option.some.inj (hs'gc.symm.trans hg')
    injection heq with heq2
    subst heq2
    exact alistGet_alistDel_ne g "enable_affective_dialog" k hk

theorem C7_witness :
    ∃ s', transformSetup DEFAULT_MODEL
        [("model", Json.str "gemini-live-2.5-flash-native-audio"),
         ("proactivity", Json.bool true),
         ("generation_config",
           Json.obj [("enable_affective_dialog", Json.bool true),
                     ("temperature", Json.num 1)]),
         ("tools", Json.arr [])] = some s' ∧
      Json.obj [("session", Json.str "abc"),
        ("setup", Json.obj [("model",
            Json.str "models/gemini-2.5-flash-native-audio-preview-12-2025"),
          ("generation_config", Json.obj [("temperature", Json.num 1)]),
          ("tools", Json.arr [])])] =
        .obj (alistSet [("session", Json.str "abc"),
          ("setup", Json.obj [("model", Json.str "gemini-live-2.5-flash-native-audio"),
            ("proactivity", Json.bool true),
            ("generation_config",
              Json.obj [("enable_affective_dialog", Json.bool true),
                        ("temperature", Json.num 1)]),
            ("tools", Json.arr [])])] "setup" (.obj s')) ∧
      alistGet s' "proactivity" = none ∧
      (∀ g', alistGet s' "generation_config" = some (.obj g') →
          alistGet g' "enable_affective_dialog" = none) ∧
      (∀ k, ¬ k = "setup" →
          alistGet (alistSet [("session", Json.str "abc"),
            ("setup", Json.obj [("model", Json.str "gemini-live-2.5-flash-native-audio"),
              ("proactivity", Json.bool true),
              ("generation_config",
                Json.obj [("enable_affective_dialog", Json.bool true),
                          ("temperature", Json.num 1)]),
              ("tools", Json.arr [])])] "setup" (.obj s')) k =
            alistGet [("session", Json.str "abc"),
              ("setup", Json.obj [("model", Json.str "gemini-live-2.5-flash-native-audio"),
                ("proactivity", Json.bool true),
                ("generation_config",
                  Json.obj [("enable_affective_dialog", Json.bool true),
                            ("temperature", Json.num 1)]),
                ("tools", Json.arr [])])] k) ∧
      (∀ k, ¬ k = "model" → ¬ k = "proactivity" → ¬ k = "generation_config" →
          alistGet s' k =
            alistGet [("model", Json.str "gemini-live-2.5-flash-native-audio"),
              ("proactivity", Json.bool true),
              ("generation_config",
                Json.obj [("enable_affective_dialog", Json.bool true),
                          ("temperature", Json.num 1)]),
              ("tools", Json.arr [])] k) ∧
      (∀ g g' k, alistGet [("model", Json.str "gemini-live-2.5-flash-native-audio"),
            ("proactivity", Json.bool true),
            ("generation_config",
              Json.obj [("enable_affective_dialog", Json.bool true),
                        ("temperature", Json.num 1)]),
            ("tools", Json.arr [])] "generation_config" = some (.obj g) →
          alistGet s' "generation_config" = some (.obj g') →
          ¬ k = "enable_affective_dialog" → alistGet g' k = alistGet g k) := by
  have hy : transformData DEFAULT_MODEL
      (.obj [("session", Json.str "abc"),
        ("setup", Json.obj [("model", Json.str "gemini-live-2.5-flash-native-audio"),
          ("proactivity", Json.bool true),
          ("generation_config",
            Json.obj [("enable_affective_dialog", Json.bool true),
                      ("temperature", Json.num 1)]),
          ("tools", Json.arr [])])]) =
      some (.obj [("session", Json.str "abc"),
        ("setup", Json.obj [("model",
            Json.str "models/gemini-2.5-flash-native-audio-preview-12-2025"),
          ("generation_config", Json.obj [("temperature", Json.num 1)]),
          ("tools", Json.arr [])])]) := by decide
  exact C7_frame DEFAULT_MODEL _ _ _ (by decide) hy

/-- C2 (counterexample): the transformation is not restricted to the first
qualifying message — a second client→upstream message with a "setup"
section is transformed too (its "proactivity" field is stripped), not
re-serialized verbatim. -/
theorem C2_counterexample :
    (proxy_task DEFAULT_MODEL true false
        [.obj [("setup", .obj [("proactivity", .bool true)])],
         .obj [("setup", .obj [("proactivity", .bool true)])]] ⟨false, []⟩).2.sent =
      [.obj [("setup", .obj [])], .obj [("setup", .obj [])]] ∧
    ¬ (Json.obj [("setup", Json.obj [])] =
        Json.obj [("setup", Json.obj [("proactivity", Json.bool true)])]) := by
  decide

/-- C2 (amended): in the direct-key variant, the setup transformation is
applied to every client→upstream message (the last message of a stream is
processed exactly like any other, through `transformData`), while every
upstream→client message is re-serialized verbatim. -/
theorem C2_transform_every_message (defaultModel : String)
    (msgs : List Json) (m : Json) (sent0 : List Json) :
    (proxy_task defaultModel false true msgs ⟨false, sent0⟩).2.sent = sent0 ++ msgs ∧
    (proxy_task defaultModel true false (msgs ++ [m]) ⟨false, sent0⟩).2.sent =
      (proxy_task defaultModel true false msgs ⟨false, sent0⟩).2.sent ++
        (transformData defaultModel m).toList := by
  have hid : processMessage defaultModel false true = some := by
    funext x
    rfl
  constructor
  · simp only [proxy_task, proxy_task_loop_open, hid, List.filterMap_some]
  · simp only [proxy_task, proxy_task_loop_open, List.filterMap_append, List.append_assoc]
    have hlast : List.filterMap (processMessage defaultModel true false) [m] =
        (transformData defaultModel m).toList := by
      show List.filterMap (processMessage defaultModel true false) [m] = _
      cases htd : transformData defaultModel m with
      | none =>
        simp [List.filterMap_cons, processMessage, htd]
      | some v =>
        simp [List.filterMap_cons, processMessage, htd]
    rw [hlast]

/-- C4 (counterexample): with the destination already closed, both writes
fail, yet the loop consumes both source messages instead of terminating
after the first failed write (which would leave the count at 1). -/
theorem C4_counterexample :
    (proxy_task DEFAULT_MODEL false false [Json.obj [], Json.obj []] ⟨true, []⟩).1 = 2 ∧
    ¬ ((proxy_task DEFAULT_MODEL false false [Json.obj [], Json.obj []] ⟨true, []⟩).1 = 1) ∧
    (proxy_task DEFAULT_MODEL false false [Json.obj [], Json.obj []] ⟨true, []⟩).2.sent = [] := by
  decide

/-- C4 (amended): a write failure against an already-closed destination is
caught by the per-message handler and does not terminate the loop: the
loop consumes every message the source delivers (the write is simply
dropped), and it terminates only when the source closes. -/
theorem C4_write_failure_survived (defaultModel : String)
    (transform is_server : Bool) (msgs sent0 : List Json) :
    (proxy_task defaultModel transform is_server msgs ⟨true, sent0⟩).1 = msgs.length ∧
    (proxy_task defaultModel transform is_server msgs ⟨true, sent0⟩).2.sent = sent0 ∧
    (proxy_task defaultModel transform is_server msgs ⟨true, sent0⟩).2.closed = true := by
  refine ⟨?_, ?_, ?_⟩
  · simp only [proxy_task, proxy_task_loop_count]
  · simp only [proxy_task, proxy_task_loop_closed]
  · simp only [proxy_task]

/-- C5 (counterexample): when the upstream closes mid-relay with code 1011
and a reason, the client is not closed with that code and reason — it
receives the bare-close defaults (1000, empty reason) from the
upstream→client `proxy_task`'s `finally` clause. -/
theorem C5_counterexample :
    create_proxy_client_close (.relayUpstreamClosed ⟨1011, "backend unavailable"⟩) =
      ⟨1000, ""⟩ ∧
    ¬ (create_proxy_client_close (.relayUpstreamClosed ⟨1011, "backend unavailable"⟩) =
        ⟨1011, "backend unavailable"⟩) := by
  decide

/-- C5 (amended): the upstream's close code and reason are propagated to
the client verbatim only when the upstream connection attempt itself fails
with a `ConnectionClosed`; any other connection failure yields the generic
(1008, "Upstream connection failed"), and an upstream that closes
mid-relay leads to the client being closed with the bare-close defaults
(1000, empty reason). -/
theorem C5_upstream_close_propagation (info : CloseInfo) :
    create_proxy_client_close (.connectClosed info) = info ∧
    create_proxy_client_close .connectFailed = ⟨1008, "Upstream connection failed"⟩ ∧
    create_proxy_client_close (.relayUpstreamClosed info) = ⟨1000, ""⟩ :=
  ⟨rfl, rfl, rfl⟩

/-- C9 (counterexample): a handshake with no bearer_token and no
service_url does not always close with "Service URL is required" — when
credential resolution fails, the token is resolved first and the session
closes with (1008, "Authentication failed") instead. -/
theorem C9_counterexample :
    handle_websocket_client [] none = .closeConn 1008 "Authentication failed" ∧
    ¬ (handle_websocket_client [] none = .closeConn 1008 "Service URL is required") := by
  decide

/-- C9 (amended): under the managed variant, for a handshake with no
bearer_token and no service_url, credential resolution runs first: if it
yields a token the session closes with (1008, "Service URL is required"),
and if it fails the session closes with (1008, "Authentication failed");
in both cases no upstream connection is attempted. -/
theorem C9_missing_url (data : List (String × Json)) (tokenGen : Option String)
    (hb : alistGet data "bearer_token" = none)
    (hu : alistGet data "service_url" = none) :
    (∀ tok, tokenGen = some tok →
      handle_websocket_client data tokenGen = .closeConn 1008 "Service URL is required") ∧
    (tokenGen = none →
      handle_websocket_client data tokenGen = .closeConn 1008 "Authentication failed") ∧
    (handle_websocket_client data tokenGen).attemptsUpstream = false := by
  have hb' : optTruthy (alistGet data "bearer_token") = false := by
    rw [hb]
    rfl
  have hu' : optTruthy (alistGet data "service_url") = false := by
    rw [hu]
    rfl
  refine ⟨?_, ?_, ?_⟩
  · intro tok htok
    subst htok
    simp [handle_websocket_client, hb', hu']
  · intro htok
    subst htok
    simp [handle_websocket_client, hb']
  · cases tokenGen with
    | none => simp [handle_websocket_client, hb', hu', Outcome.attemptsUpstream]
    | some tok => simp [handle_websocket_client, hb', hu', Outcome.attemptsUpstream]

theorem C9_witness :
    (∀ tok, (some "tok" : Option String) = some tok →
      handle_websocket_client [] (some "tok") = .closeConn 1008 "Service URL is required") ∧
    ((some "tok" : Option String) = none →
      handle_websocket_client [] (some "tok") = .closeConn 1008 "Authentication failed") ∧
    (handle_websocket_client [] (some "tok")).attemptsUpstream = false :=
  C9_missing_url [] (some "tok") (by decide) (by decide)

end Ganza
